import Mathlib

/-!
Verification of the gocryptotrader core: currency-pair reconciliation
(`exchange.Base.UpdateCurrencies`), configuration consistency
(`config.Config.CheckPairConsistency`, `config.Config.UpdateExchangeConfig`,
`config.Config.SupportsPair`, `exchange.Base.SupportsCurrency`) and the
order-book registry (`orderbook` package).

Go strings are embedded as `List Char` (`GoString`); Go slices as `List`;
fallible Go functions return `Except`/`Option` values, and methods that
mutate a receiver are embedded as state-passing functions that return the
updated state.  Functions of the repository that are not part of the given
sources (the `pair`, `common` and `orderbook` implementation files) are
modelled from the specification, and are marked as such in their doc
comments.
-/

/-- A Go string, embedded as its list of characters. -/
abbrev GoString := List Char

/-- Modelled from the spec: `common.SplitStrings(s, ",")` — Go
`strings.Split` with the one-character separator `","`, splitting on every
occurrence of the comma.  On the empty string it returns one empty field,
exactly as Go does. -/
def SplitStrings : GoString → List GoString
  | [] => [[]]
  | c :: cs =>
    let r := SplitStrings cs
    if c = ',' then [] :: r
    else (c :: r.headD []) :: r.tail

/-- Modelled from the spec: `common.JoinStrings(l, ",")` — Go
`strings.Join` with separator `","`. -/
def JoinStrings : List GoString → GoString
  | [] => []
  | [s] => s
  | s :: rest => s ++ ',' :: JoinStrings rest

/-- Modelled from the spec: `common.StringToUpper` — Go `strings.ToUpper`,
character-wise upper-casing (the symbols handled by the spec are ASCII). -/
def StringToUpper (s : GoString) : GoString :=
  s.map Char.toUpper

theorem SplitStrings_ne_nil (s : GoString) : SplitStrings s ≠ [] := by
  cases s with
  | nil => simp [SplitStrings]
  | cons c cs =>
    simp only [SplitStrings]
    split <;> simp

theorem SplitStrings_no_comma (s : GoString) (h : ',' ∉ s) :
    SplitStrings s = [s] := by
  induction s with
  | nil => rfl
  | cons c cs ih =>
    simp only [List.mem_cons, not_or] at h
    simp [SplitStrings, Ne.symm h.1, ih h.2]

theorem SplitStrings_append_comma (s t : GoString) (h : ',' ∉ s) :
    SplitStrings (s ++ ',' :: t) = s :: SplitStrings t := by
  induction s with
  | nil => simp [SplitStrings]
  | cons c cs ih =>
    simp only [List.mem_cons, not_or] at h
    have hc : ¬ (c = ',') := fun hh => h.1 hh.symm
    have hr := ih h.2
    rw [List.cons_append]
    simp only [SplitStrings, hr, if_neg hc, List.headD, List.tail]

/-- Splitting the comma-join of a non-empty list of comma-free strings
recovers the list. -/
theorem SplitStrings_JoinStrings (l : List GoString) (hne : l ≠ [])
    (h : ∀ s ∈ l, ',' ∉ s) : SplitStrings (JoinStrings l) = l := by
  induction l with
  | nil => exact absurd rfl hne
  | cons x rest ih =>
    cases rest with
    | nil => exact SplitStrings_no_comma x (h x (by simp))
    | cons y rest' =>
      have hx : ',' ∉ x := h x (by simp)
      have : JoinStrings (x :: y :: rest') = x ++ ',' :: JoinStrings (y :: rest') := rfl
      rw [this, SplitStrings_append_comma x _ hx,
        ih (by simp) (fun s hs => h s (List.mem_cons_of_mem _ hs))]

theorem Char_toUpper_comma : Char.toUpper ',' = ',' := by decide

theorem Char_toUpper_eq_comma {c : Char} (h : Char.toUpper c = ',') :
    c = ',' := by
  by_cases hc : c.toNat ≥ 97 ∧ c.toNat ≤ 122
  · exfalso
    unfold Char.toUpper at h
    simp only [if_pos hc] at h
    generalize hm : c.toNat - 32 = m at h
    have h1 : 65 ≤ m := by omega
    have h2 : m ≤ 90 := by omega
    interval_cases m <;> exact absurd h (by decide)
  · unfold Char.toUpper at h
    simp only [if_neg hc] at h
    exact h

theorem StringToUpper_no_comma {s : GoString} (h : ',' ∉ s) :
    ',' ∉ StringToUpper s := by
  intro hc
  rcases List.mem_map.mp hc with ⟨c, hc1, hc2⟩
  exact h (Char_toUpper_eq_comma hc2 ▸ hc1)

theorem StringToUpper_JoinStrings (l : List GoString) :
    StringToUpper (JoinStrings l) = JoinStrings (l.map StringToUpper) := by
  induction l with
  | nil => rfl
  | cons x rest ih =>
    cases rest with
    | nil => rfl
    | cons y rest' =>
      show StringToUpper (x ++ ',' :: JoinStrings (y :: rest')) =
        StringToUpper x ++ ',' :: JoinStrings ((y :: rest').map StringToUpper)
      rw [← ih]
      simp [StringToUpper, Char_toUpper_comma]

/-- Modelled from the spec (§3): `pair.CurrencyPair` — an ordered pair of
currency tokens (First, Second) plus the delimiter string used when the
pair was constructed (empty means "no delimiter"). -/
structure CurrencyPair where
  Delimiter : GoString
  FirstCurrency : GoString
  SecondCurrency : GoString
deriving DecidableEq, Repr, Inhabited

/-- Modelled from the spec (§4.1 Format / `pair.CurrencyPair.Pair().String()`):
render a pair by joining First and Second with the pair's own delimiter. -/
def CurrencyPair.pairString (p : CurrencyPair) : GoString :=
  p.FirstCurrency ++ p.Delimiter ++ p.SecondCurrency

/-- Split a string at the first occurrence of the delimiter `d`:
`some (before, after)` when `d` occurs in the string, `none` otherwise
(the "split on first occurrence" of the spec's `Parse`, §4.1). -/
def splitFirst (d : GoString) : GoString → Option (GoString × GoString)
  | [] => none
  | c :: cs =>
    if d.isPrefixOf (c :: cs) then some ([], (c :: cs).drop d.length)
    else
      match splitFirst d cs with
      | some (a, b) => some (c :: a, b)
      | none => none

/-- Modelled from the spec (§4.1 Parse, cases 2 and 3): parse a raw symbol
that carries no delimiter, using the optional index currency; when neither
prefix nor suffix matches, degenerate to an unsplit pair (§9). -/
def parseNoDelim (raw index : GoString) : CurrencyPair :=
  if index ≠ [] ∧ index.isPrefixOf raw = true then
    ⟨[], index, raw.drop index.length⟩
  else if index ≠ [] ∧ index.isSuffixOf raw = true then
    ⟨[], raw.take (raw.length - index.length), index⟩
  else ⟨[], raw, []⟩

/-- Modelled from the spec (§4.1 Parse): three cases tried in order —
split on the first occurrence of a non-empty delimiter, else split with
the index currency, else an unsplit degenerate pair. -/
def parsePair (raw delimiter index : GoString) : CurrencyPair :=
  if delimiter ≠ [] then
    match splitFirst delimiter raw with
    | some (a, b) => ⟨delimiter, a, b⟩
    | none => parseNoDelim raw index
  else parseNoDelim raw index

/-- Modelled from the spec: `pair.FormatPairs(tokens, delimiter, index)` —
parse every raw symbol with `Parse` (§4.1); empty raw symbols are dropped
(§3 invariant: First and Second are never both empty, so an empty raw
symbol yields no pair). -/
def pair.FormatPairs (tokens : List GoString) (delimiter index : GoString) :
    List CurrencyPair :=
  (tokens.filter (· ≠ [])).map (fun t => parsePair t delimiter index)

/-- Modelled from the spec (§4.1): `pair.CurrencyPair.Equal` compares the
First tokens and the Second tokens directly — case-insensitively unless
`caseSensitive` — and never matches the order-swapped pair. -/
def CurrencyPair.Equal (c p : CurrencyPair) (caseSensitive : Bool) : Bool :=
  if caseSensitive then
    c.FirstCurrency == p.FirstCurrency && c.SecondCurrency == p.SecondCurrency
  else
    StringToUpper c.FirstCurrency == StringToUpper p.FirstCurrency &&
      StringToUpper c.SecondCurrency == StringToUpper p.SecondCurrency

/-- Modelled from the spec (§4.1 SupportsPair): `pair.Contains(pairs, p, cs)`
— membership of `p` in `pairs` under `CurrencyPair.Equal`. -/
def pair.Contains (pairs : List CurrencyPair) (p : CurrencyPair)
    (caseSensitive : Bool) : Bool :=
  pairs.any (fun q => q.Equal p caseSensitive)

/-- Modelled from the spec (§4.2 step 2): `pair.FindPairDifferences(current,
fetched)` returns `(fetched − current, current − fetched)`, set differences
over the canonical string form. -/
def pair.FindPairDifferences (currentPairs fetchedPairs : List GoString) :
    List GoString × List GoString :=
  (fetchedPairs.filter (fun s => !(currentPairs.contains s)),
   currentPairs.filter (fun s => !(fetchedPairs.contains s)))

/-- Modelled from the spec (§4.2 consistency check): `pair.RandomPairFromPairs`
selects one pseudo-random pair from the list; the pseudo-random draw is
modelled by an explicit choice index `k`, taken modulo the length. -/
def pair.RandomPairFromPairs (pairs : List CurrencyPair) (k : Nat) :
    CurrencyPair :=
  pairs.getD (k % pairs.length) default

/-- Modelled from the spec: `pair.PairsToStringArray` renders each pair to
its canonical string form. -/
def pair.PairsToStringArray (pairs : List CurrencyPair) : List GoString :=
  pairs.map CurrencyPair.pairString

theorem splitFirst_eq_append {d t a b : GoString}
    (h : splitFirst d t = some (a, b)) : t = a ++ d ++ b := by
  induction t generalizing a with
  | nil => simp [splitFirst] at h
  | cons c cs ih =>
    rw [splitFirst] at h
    split at h
    · rename_i hp
      rcases ( List.isPrefixOf_iff_prefix.mp hp : d <+: c :: cs) with ⟨u, hu⟩
      rw [← hu, List.drop_left] at h
      cases h
      simpa using hu.symm
    · revert h
      cases hs : splitFirst d cs with
      | none => intro h; cases h
      | some ab =>
        obtain ⟨a', b'⟩ := ab
        intro h
        cases h
        simp [ih hs]

/-- Parsing a raw symbol and rendering the result gives back the raw
symbol, whatever the delimiter and index are. -/
theorem pairString_parsePair (t d i : GoString) :
    (parsePair t d i).pairString = t := by
  have hnd : (parseNoDelim t i).pairString = t := by
    unfold parseNoDelim
    split
    · rename_i hp
      rcases ( List.isPrefixOf_iff_prefix.mp hp.2 : i <+: t) with ⟨u, hu⟩
      simp [CurrencyPair.pairString, ← hu, List.drop_left]
    · split
      · rename_i hs
        rcases (List.isSuffixOf_iff_suffix.mp hs.2 : i <:+ t) with ⟨u, hu⟩
        simp [CurrencyPair.pairString, ← hu, List.take_left]
      · simp [CurrencyPair.pairString]
  unfold parsePair
  split
  · cases hs : splitFirst d t with
    | none => simpa using hnd
    | some ab =>
      obtain ⟨a, b⟩ := ab
      simp [CurrencyPair.pairString, (splitFirst_eq_append hs).symm]
  · exact hnd

/-- Errors of the embedded operations. -/
inductive GoErr where
  | exchangeNotFound : GoString → GoErr
  | emptyProducts : GoString → GoErr
deriving DecidableEq, Repr

/-- `config.CurrencyPairFormatConfig` (the fields used by the embedded
operations). -/
structure CurrencyPairFormatConfig where
  Delimiter : GoString
  Uppercase : Bool
  Index : GoString
deriving DecidableEq, Repr, Inhabited

/-- `config.ExchangeConfig` (src/unnamed/part_006; the fields the embedded
operations touch). -/
structure ExchangeConfig where
  Name : GoString
  EnabledPairs : GoString
  AvailablePairs : GoString
  ConfigCurrencyPairFormat : CurrencyPairFormatConfig
deriving DecidableEq, Repr, Inhabited

/-- `config.Config` (src/unnamed/part_006; the exchange list). -/
structure Config where
  Exchanges : List ExchangeConfig
deriving DecidableEq, Repr

/-- `config.Config.GetExchangeConfig` (src/unnamed/part_006:501-511):
returns the first exchange configuration whose Name matches. -/
def Config.GetExchangeConfig (c : Config) (name : GoString) :
    Except GoErr ExchangeConfig :=
  match c.Exchanges.find? (fun e => e.Name == name) with
  | some e => .ok e
  | none => .error (.exchangeNotFound name)

/-- The list update underlying `config.Config.UpdateExchangeConfig`:
replace the first entry whose Name matches, `none` when there is none. -/
def updateExchangesList (e : ExchangeConfig) :
    List ExchangeConfig → Option (List ExchangeConfig)
  | [] => none
  | x :: xs =>
    if x.Name == e.Name then some (e :: xs)
    else (updateExchangesList e xs).map (x :: ·)

/-- `config.Config.UpdateExchangeConfig` (src/unnamed/part_006:537-549):
replaces the first exchange entry with a matching Name; when no entry
matches it returns the not-found error and leaves the list untouched. -/
def Config.UpdateExchangeConfig (c : Config) (e : ExchangeConfig) :
    Option GoErr × Config :=
  match updateExchangesList e c.Exchanges with
  | some l => (none, ⟨l⟩)
  | none => (some (.exchangeNotFound e.Name), c)

/-- `config.Config.GetAvailablePairs` (src/unnamed/part_006:410-421). -/
def Config.GetAvailablePairs (c : Config) (exchName : GoString) :
    Except GoErr (List CurrencyPair) :=
  match c.GetExchangeConfig exchName with
  | .error e => .error e
  | .ok exchCfg =>
    .ok (pair.FormatPairs (SplitStrings exchCfg.AvailablePairs)
      exchCfg.ConfigCurrencyPairFormat.Delimiter
      exchCfg.ConfigCurrencyPairFormat.Index)

/-- `config.Config.GetEnabledPairs` (src/unnamed/part_006:423-434). -/
def Config.GetEnabledPairs (c : Config) (exchName : GoString) :
    Except GoErr (List CurrencyPair) :=
  match c.GetExchangeConfig exchName with
  | .error e => .error e
  | .ok exchCfg =>
    .ok (pair.FormatPairs (SplitStrings exchCfg.EnabledPairs)
      exchCfg.ConfigCurrencyPairFormat.Delimiter
      exchCfg.ConfigCurrencyPairFormat.Index)

/-- `config.Config.SupportsPair` (src/unnamed/part_006:401-407). -/
def Config.SupportsPair (c : Config) (exchName : GoString)
    (p : CurrencyPair) : Except GoErr Bool :=
  match c.GetAvailablePairs exchName with
  | .error e => .error e
  | .ok pairs => .ok (pair.Contains pairs p false)

/-- `config.Config.CheckPairConsistency` (src/unnamed/part_006:352-397).
The pseudo-random fallback draw of `pair.RandomPairFromPairs` is modelled
by the explicit choice index `k`. -/
def Config.CheckPairConsistency (c : Config) (exchName : GoString)
    (k : Nat) : Except GoErr Config :=
  match c.GetEnabledPairs exchName with
  | .error e => .error e
  | .ok enabledPairs =>
    match c.GetAvailablePairs exchName with
    | .error e => .error e
    | .ok availPairs =>
      let pairs := enabledPairs.filter (fun p => pair.Contains availPairs p true)
      let pairsRemoved :=
        enabledPairs.filter (fun p => !(pair.Contains availPairs p true))
      if pairsRemoved.isEmpty then .ok c
      else
        match c.GetExchangeConfig exchName with
        | .error e => .error e
        | .ok exchCfg =>
          let exchCfg' :=
            if pairs.isEmpty then
              { exchCfg with
                EnabledPairs := (pair.RandomPairFromPairs availPairs k).pairString }
            else
              { exchCfg with
                EnabledPairs := JoinStrings (pair.PairsToStringArray pairs) }
          match c.UpdateExchangeConfig exchCfg' with
          | (some e, _) => .error e
          | (none, c') => .ok c'

/-- `exchange.Base` (src/unnamed/part_001; the fields used by the embedded
operations). -/
structure Base where
  Name : GoString
  EnabledPairs : List GoString
  AvailablePairs : List GoString
  ConfigCurrencyPairFormat : CurrencyPairFormatConfig
deriving DecidableEq, Repr, Inhabited

/-- `exchange.Base.GetEnabledCurrencies` (src/unnamed/part_001:286-290). -/
def Base.GetEnabledCurrencies (e : Base) : List CurrencyPair :=
  pair.FormatPairs e.EnabledPairs e.ConfigCurrencyPairFormat.Delimiter
    e.ConfigCurrencyPairFormat.Index

/-- `exchange.Base.GetAvailableCurrencies` (src/unnamed/part_001:294-298). -/
def Base.GetAvailableCurrencies (e : Base) : List CurrencyPair :=
  pair.FormatPairs e.AvailablePairs e.ConfigCurrencyPairFormat.Delimiter
    e.ConfigCurrencyPairFormat.Index

/-- `exchange.Base.SupportsCurrency` (src/unnamed/part_001:302-307). -/
def Base.SupportsCurrency (e : Base) (p : CurrencyPair)
    (enabledPairs : Bool) : Bool :=
  if enabledPairs then pair.Contains e.GetEnabledCurrencies p false
  else pair.Contains e.GetAvailableCurrencies p false

/-- The product normalization step of `exchange.Base.UpdateCurrencies`
(src/unnamed/part_001:430-438): comma-join the fetched symbols, uppercase
the joined string, re-split on commas, and drop empty strings. -/
def normalizeProducts (exchangeProducts : List GoString) : List GoString :=
  (SplitStrings (StringToUpper (JoinStrings exchangeProducts))).filter (· ≠ [])

/-- The diff step of `exchange.Base.UpdateCurrencies`
(src/unnamed/part_001:440-449): pair differences between the stored set
selected by `enabled` and the normalized products. -/
def updateDiffs (e : Base) (exchangeProducts : List GoString)
    (enabled : Bool) : List GoString × List GoString :=
  if enabled then
    pair.FindPairDifferences e.EnabledPairs (normalizeProducts exchangeProducts)
  else
    pair.FindPairDifferences e.AvailablePairs (normalizeProducts exchangeProducts)

/-- Result of `exchange.Base.UpdateCurrencies`: the returned error, the
exchange state, the configuration, and whether the configuration was
written. -/
structure UpdateResult where
  err : Option GoErr
  base : Base
  cfg : Config
  wrote : Bool
deriving DecidableEq, Repr

/-- `exchange.Base.UpdateCurrencies` (src/unnamed/part_001:425-479),
embedded with explicit state.  In the Go source the in-memory pair set is
assigned before the configuration write, so the returned exchange state
reflects that ordering even when the write fails. -/
def Base.UpdateCurrencies (e : Base) (c : Config)
    (exchangeProducts : List GoString) (enabled force : Bool) : UpdateResult :=
  if exchangeProducts.length = 0 then
    ⟨some (.emptyProducts e.Name), e, c, false⟩
  else
    let products := normalizeProducts exchangeProducts
    let diffs := updateDiffs e exchangeProducts enabled
    if force || !diffs.1.isEmpty || !diffs.2.isEmpty then
      match c.GetExchangeConfig e.Name with
      | .error err => ⟨some err, e, c, false⟩
      | .ok exch =>
        let e' := if enabled then { e with EnabledPairs := products }
                  else { e with AvailablePairs := products }
        let exch' := if enabled then { exch with EnabledPairs := JoinStrings products }
                     else { exch with AvailablePairs := JoinStrings products }
        match c.UpdateExchangeConfig exch' with
        | (some err, c') => ⟨some err, e', c', false⟩
        | (none, c') => ⟨none, e', c', true⟩
    else ⟨none, e, c, false⟩

/-- Modelled from the spec (§3): `orderbook.Item` — one depth level; the Go
float64 price and amount are embedded as rationals. -/
structure Item where
  Price : Rat
  Amount : Rat
deriving DecidableEq, Repr, Inhabited

/-- Modelled from the spec (§3 OrderbookSnapshot): `orderbook.Base` — one
bid/ask snapshot; `LastUpdated` is an abstract clock tick. -/
structure orderbook.Base where
  Pair : CurrencyPair
  CurrencyPair : GoString
  Bids : List Item
  Asks : List Item
  LastUpdated : Nat
deriving DecidableEq, Repr

/-- Modelled from the spec (§4.3 CalculateTotals): the sum of Amount and
the sum of Price·Amount across one side of a snapshot. -/
def CalculateTotals (side : List Item) : Rat × Rat :=
  (side.foldl (fun acc i => acc + i.Amount) 0,
   side.foldl (fun acc i => acc + i.Price * i.Amount) 0)

/-- Modelled from the spec (§4.3): `orderbook.Base.CalculateTotalBids`. -/
def orderbook.Base.CalculateTotalBids (b : orderbook.Base) : Rat × Rat :=
  CalculateTotals b.Bids

/-- Modelled from the spec (§4.3): `orderbook.Base.CalculateTotalAsks`. -/
def orderbook.Base.CalculateTotalAsks (b : orderbook.Base) : Rat × Rat :=
  CalculateTotals b.Asks

/-- Modelled from the spec (§4.3 Process): `orderbook.Base.Update` —
wholesale replacement of Bids and Asks plus a refreshed timestamp. -/
def orderbook.Base.Update (b : orderbook.Base) (bids asks : List Item)
    (now : Nat) : orderbook.Base :=
  { b with Bids := bids, Asks := asks, LastUpdated := now }

/-- One registry entry: the (exchange, pair, asset class) key with its
snapshot. -/
structure BookEntry where
  ExchangeName : GoString
  Key : CurrencyPair
  AssetType : GoString
  Book : orderbook.Base
deriving DecidableEq, Repr

/-- Modelled from the spec (§3): the process-wide order-book registry,
keyed by (ExchangeName, CurrencyPair, AssetClass). -/
structure OrderbookRegistry where
  books : List BookEntry
deriving DecidableEq, Repr

/-- Key equality for registry lookups: exchange name, both currencies of
the pair, and the asset class (the pair's delimiter plays no role in the
key). -/
def keyMatch (en : BookEntry) (exchange : GoString) (p : CurrencyPair)
    (assetType : GoString) : Bool :=
  en.ExchangeName == exchange && en.Key.FirstCurrency == p.FirstCurrency &&
    en.Key.SecondCurrency == p.SecondCurrency && en.AssetType == assetType

/-- Replace the snapshot of the first entry matching the key, leaving all
other entries untouched. -/
def replaceBooks (exchange : GoString) (p : CurrencyPair)
    (assetType : GoString) (bids asks : List Item) (now : Nat) :
    List BookEntry → List BookEntry
  | [] => []
  | en :: rest =>
    if keyMatch en exchange p assetType then
      { en with Book := en.Book.Update bids asks now } :: rest
    else en :: replaceBooks exchange p assetType bids asks now rest

/-- Modelled from the spec (§4.3 Process): upsert — create the snapshot on
the first call for a key, otherwise replace its Bids/Asks wholesale and
bump LastUpdated; `now` is the clock value of the call. -/
def ProcessOrderbook (r : OrderbookRegistry) (exchange : GoString)
    (p : CurrencyPair) (assetType : GoString) (bids asks : List Item)
    (now : Nat) : OrderbookRegistry :=
  if r.books.any (fun en => keyMatch en exchange p assetType) then
    ⟨replaceBooks exchange p assetType bids asks now r.books⟩
  else
    ⟨r.books ++ [⟨exchange, p, assetType, ⟨p, p.pairString, bids, asks, now⟩⟩]⟩

/-- Reason message of the unknown-exchange not-found sub-case. -/
def ErrExchangeOrderbooksNotFound : GoString :=
  ("exchange orderbooks not found".toList)

/-- Reason message of the unknown-pair not-found sub-case. -/
def ErrPairOrderbookNotFound : GoString :=
  ("currency pair orderbook not found".toList)

/-- Registry error: a not-found error carrying its reason message. -/
inductive OBErr where
  | notFound : GoString → OBErr
deriving DecidableEq, Repr

/-- Modelled from the spec (§4.3 Get) together with the src test
(src/unnamed/part_005:78-115, which demands failure whenever the exact
(pair, asset class) key is absent): fail with the exchange reason when the
exchange has no snapshots at all, fail with the pair reason when the
exchange has snapshots but none under this key, otherwise return the
stored snapshot for the key. -/
def GetOrderbook (r : OrderbookRegistry) (exchange : GoString)
    (p : CurrencyPair) (assetType : GoString) : Except OBErr orderbook.Base :=
  if !(r.books.any (fun en => en.ExchangeName == exchange)) then
    .error (.notFound ErrExchangeOrderbooksNotFound)
  else
    match r.books.find? (fun en => keyMatch en exchange p assetType) with
    | some en => .ok en.Book
    | none => .error (.notFound ErrPairOrderbookNotFound)

theorem foldl_add_map_sum (f : Item → Rat) (l : List Item) (a : Rat) :
    l.foldl (fun acc i => acc + f i) a = a + (l.map f).sum := by
  induction l generalizing a with
  | nil => simp
  | cons x xs ih => simp [ih, add_assoc]

/-- C8: `CalculateTotals` returns the pair (sum of Amount, sum of
Price·Amount) over one side; it is a pure function of that side, used
identically for bids and asks; on Bids=[{100, 10}] it returns (10, 1000)
and on [{100, 10}, {200, 5}] it returns (15, 2000). -/
theorem calculateTotals_correct :
    (∀ side : List Item,
      CalculateTotals side =
        ((side.map Item.Amount).sum,
         (side.map (fun i => i.Price * i.Amount)).sum)) ∧
    (∀ b : orderbook.Base,
      b.CalculateTotalBids = CalculateTotals b.Bids ∧
      b.CalculateTotalAsks = CalculateTotals b.Asks) ∧
    CalculateTotals [⟨100, 10⟩] = (10, 1000) ∧
    CalculateTotals [⟨100, 10⟩, ⟨200, 5⟩] = (15, 2000) := by
  refine ⟨fun side => ?_, fun b => ⟨rfl, rfl⟩,
    by norm_num [CalculateTotals, List.foldl],
    by norm_num [CalculateTotals, List.foldl]⟩
  unfold CalculateTotals
  rw [foldl_add_map_sum, foldl_add_map_sum, zero_add, zero_add]

theorem updateExchangesList_found (e : ExchangeConfig)
    (l : List ExchangeConfig)
    (h : l.findIdx (fun x => x.Name == e.Name) < l.length) :
    updateExchangesList e l =
      some (l.set (l.findIdx (fun x => x.Name == e.Name)) e) := by
  induction l with
  | nil => simp at h
  | cons x xs ih =>
    by_cases hx : x.Name == e.Name
    · simp [updateExchangesList, hx, List.findIdx_cons]
    · rw [List.findIdx_cons] at h ⊢
      simp only [hx, cond_false] at h ⊢
      rw [List.length_cons, Nat.add_lt_add_iff_right] at h
      simp [updateExchangesList, hx, ih h]

theorem updateExchangesList_not_found (e : ExchangeConfig)
    (l : List ExchangeConfig) (h : ∀ x ∈ l, x.Name ≠ e.Name) :
    updateExchangesList e l = none := by
  induction l with
  | nil => rfl
  | cons x xs ih =>
    have hx : ¬(x.Name == e.Name) := by
      simpa using h x (by simp)
    simp [updateExchangesList, hx, ih (fun y hy => h y (by simp [hy]))]

/-- C9: `Config.UpdateExchangeConfig` replaces exactly the first entry of
the exchange list whose Name equals the argument's Name (every entry at a
different position is unchanged), and when no entry has that name it
returns the exchange-not-found error with the configuration completely
unchanged. -/
theorem updateExchangeConfig_spec (c : Config) (e : ExchangeConfig) :
    (c.Exchanges.findIdx (fun x => x.Name == e.Name) < c.Exchanges.length →
      c.UpdateExchangeConfig e =
        (none,
         ⟨c.Exchanges.set (c.Exchanges.findIdx (fun x => x.Name == e.Name)) e⟩) ∧
      ∀ j, j ≠ c.Exchanges.findIdx (fun x => x.Name == e.Name) →
        (c.UpdateExchangeConfig e).2.Exchanges[j]? = c.Exchanges[j]?) ∧
    ((∀ x ∈ c.Exchanges, x.Name ≠ e.Name) →
      c.UpdateExchangeConfig e = (some (.exchangeNotFound e.Name), c)) := by
  constructor
  · intro h
    have hu := updateExchangesList_found e c.Exchanges h
    constructor
    · simp [Config.UpdateExchangeConfig, hu]
    · intro j hj
      simp [Config.UpdateExchangeConfig, hu, List.getElem?_set_ne (Ne.symm hj)]
  · intro h
    simp [Config.UpdateExchangeConfig, updateExchangesList_not_found e _ h]

theorem updateExchangeConfig_spec_witness :
    ((⟨[⟨("A".toList), [], [], ⟨[], true, []⟩⟩,
        ⟨("B".toList), [], [], ⟨[], true, []⟩⟩]⟩ : Config).Exchanges.findIdx
      (fun x => x.Name == ("B".toList)) <
        (⟨[⟨("A".toList), [], [], ⟨[], true, []⟩⟩,
           ⟨("B".toList), [], [], ⟨[], true, []⟩⟩]⟩ : Config).Exchanges.length) ∧
    ((⟨[⟨("A".toList), [], [], ⟨[], true, []⟩⟩,
        ⟨("B".toList), [], [], ⟨[], true, []⟩⟩]⟩ : Config).UpdateExchangeConfig
      ⟨("B".toList), ("X".toList), [], ⟨[], true, []⟩⟩ =
      (none,
       ⟨[⟨("A".toList), [], [], ⟨[], true, []⟩⟩,
         ⟨("B".toList), ("X".toList), [], ⟨[], true, []⟩⟩]⟩)) := by
  constructor
  · decide
  · exact ((updateExchangeConfig_spec _ _).1 (by decide)).1.trans (by decide)

theorem getExchangeConfig_error (c : Config) (n : GoString) :
    (∃ x, c.GetExchangeConfig n = .ok x) ∨
      c.GetExchangeConfig n = .error (.exchangeNotFound n) := by
  unfold Config.GetExchangeConfig
  cases c.Exchanges.find? (fun e => e.Name == n) <;> simp

theorem updateExchangeConfig_fst (c : Config) (x : ExchangeConfig) :
    (c.UpdateExchangeConfig x).1 = none ∨
      (c.UpdateExchangeConfig x).1 = some (.exchangeNotFound x.Name) := by
  unfold Config.UpdateExchangeConfig
  cases updateExchangesList x c.Exchanges <;> simp

theorem updateCurrencies_err_shape (e : Base) (c : Config)
    (ps : List GoString) (enabled force : Bool) (hps : ps ≠ []) :
    (Base.UpdateCurrencies e c ps enabled force).err = none ∨
      ∃ n, (Base.UpdateCurrencies e c ps enabled force).err =
        some (.exchangeNotFound n) := by
  unfold Base.UpdateCurrencies
  rw [if_neg (by simpa [List.length_eq_zero] using hps)]
  simp only []
  split
  · rcases getExchangeConfig_error c e.Name with ⟨x, hx⟩ | hx <;> rw [hx]
    · simp only []
      rcases hu : Config.UpdateExchangeConfig c
          (if enabled then { x with EnabledPairs := JoinStrings (normalizeProducts ps) }
           else { x with AvailablePairs := JoinStrings (normalizeProducts ps) }) with ⟨fst, snd⟩
      rcases updateExchangeConfig_fst c
          (if enabled then { x with EnabledPairs := JoinStrings (normalizeProducts ps) }
           else { x with AvailablePairs := JoinStrings (normalizeProducts ps) }) with h1 | h1 <;>
        rw [hu] at h1 <;> subst h1 <;> simp
    · simp
  · simp

/-- C4 counterexample: with an empty fetched list and `force = true` — an
explicit force-clear — `UpdateCurrencies` is still rejected with the
empty-product-list error, contradicting the claim that an explicit
force-clear with an empty list is not rejected. -/
theorem updateCurrencies_forced_empty_rejected :
    (Base.UpdateCurrencies ⟨("ANX".toList), [("BTC".toList)], [], ⟨[], true, []⟩⟩
        ⟨[]⟩ [] true true).err = some (.emptyProducts ("ANX".toList)) := rfl

/-- C4 (amended): the reconciliation fails with the empty-pair-list error
exactly when the fetched symbol list is empty — regardless of the force
flag — and in that failure case the exchange pair sets and the
configuration are unmodified and no configuration write happens. -/
theorem updateCurrencies_empty_guard (e : Base) (c : Config)
    (ps : List GoString) (enabled force : Bool) :
    ((Base.UpdateCurrencies e c ps enabled force).err =
        some (.emptyProducts e.Name) ↔ ps = []) ∧
    (ps = [] →
      Base.UpdateCurrencies e c ps enabled force =
        ⟨some (.emptyProducts e.Name), e, c, false⟩) := by
  by_cases hps : ps = []
  · subst hps
    exact ⟨⟨fun _ => rfl, fun _ => rfl⟩, fun _ => rfl⟩
  · refine ⟨⟨fun h => ?_, fun h => absurd h hps⟩, fun h => absurd h hps⟩
    rcases updateCurrencies_err_shape e c ps enabled force hps with h1 | ⟨n, h1⟩ <;>
      rw [h1] at h <;> simp at h

theorem updateCurrencies_empty_guard_witness :
    ((Base.UpdateCurrencies ⟨("ANX".toList), [], [], ⟨[], true, []⟩⟩ ⟨[]⟩
        [] false false).err = some (.emptyProducts ("ANX".toList))) ∧
    (Base.UpdateCurrencies ⟨("ANX".toList), [], [], ⟨[], true, []⟩⟩ ⟨[]⟩
        [] false false =
      ⟨some (.emptyProducts ("ANX".toList)),
       ⟨("ANX".toList), [], [], ⟨[], true, []⟩⟩, ⟨[]⟩, false⟩) :=
  ⟨(updateCurrencies_empty_guard _ _ [] false false).1.mpr rfl,
   (updateCurrencies_empty_guard _ _ [] false false).2 rfl⟩

/-- The spec's step-1 normalization, stated as the spec writes it:
uppercase the fetched symbols, drop empties (§4.2 step 1). -/
def specNormalize (fetched : List GoString) : List GoString :=
  (fetched.map StringToUpper).filter (· ≠ [])

theorem normalizeProducts_comma_free (ps : List GoString)
    (h : ∀ s ∈ ps, ',' ∉ s) :
    normalizeProducts ps = specNormalize ps := by
  cases hps : ps with
  | nil => rfl
  | cons x rest =>
    rw [← hps]
    have hne : ps ≠ [] := by rw [hps]; simp
    unfold normalizeProducts specNormalize
    rw [StringToUpper_JoinStrings,
      SplitStrings_JoinStrings (ps.map StringToUpper) (by simpa using hne)
        (by
          intro s hs
          rcases List.mem_map.mp hs with ⟨t, ht, rfl⟩
          exact StringToUpper_no_comma (h t ht))]

/-- C1 (amended): provided no fetched symbol contains a comma, the
reconciliation's normalization uppercases the fetched symbols and drops
empty strings, and its diffs are exactly `newPairs = fetchedSymbols −
currentSet` and `removedPairs = currentSet − fetchedSymbols`, set
differences over the canonical string form, with `currentSet` the stored
set selected by the `enabled` flag. -/
theorem updateDiffs_set_difference (e : Base) (fetched : List GoString)
    (enabled : Bool) (h : ∀ s ∈ fetched, ',' ∉ s) :
    normalizeProducts fetched = specNormalize fetched ∧
    updateDiffs e fetched enabled =
      (let current := if enabled then e.EnabledPairs else e.AvailablePairs
       ((specNormalize fetched).filter (fun s => !(current.contains s)),
        current.filter (fun s => !((specNormalize fetched).contains s)))) := by
  refine ⟨normalizeProducts_comma_free fetched h, ?_⟩
  unfold updateDiffs pair.FindPairDifferences
  rw [normalizeProducts_comma_free fetched h]
  cases enabled <;> simp

theorem updateDiffs_set_difference_witness :
    (∀ s ∈ [("btc-usd".toList), ("ltc-usd".toList)], ',' ∉ s) ∧
    updateDiffs ⟨("ANX".toList), [("BTC-USD".toList)], [], ⟨("-".toList), true, []⟩⟩
        [("btc-usd".toList), ("ltc-usd".toList)] true =
      ([("LTC-USD".toList)], []) := by
  constructor
  · decide
  · have h := (updateDiffs_set_difference
      ⟨("ANX".toList), [("BTC-USD".toList)], [], ⟨("-".toList), true, []⟩⟩
      [("btc-usd".toList), ("ltc-usd".toList)] true (by decide)).2
    rw [h]
    decide

/-- C1 counterexample: a fetched symbol containing a comma is split apart
by the comma-join/re-split of src/unnamed/part_001:430, so the computed
`newPairs` differs from the claim's set difference over the uppercased
fetched symbols: on fetched {"btc,usd"} against an empty current set the
code yields {"BTC", "USD"} where the claim requires {"BTC,USD"}. -/
theorem updateDiffs_comma_counterexample :
    (updateDiffs ⟨("ANX".toList), [], [], ⟨[], true, []⟩⟩
        [("btc,usd".toList)] true).1 = [("BTC".toList), ("USD".toList)] ∧
    (specNormalize [("btc,usd".toList)]).filter
        (fun s => !(([] : List GoString).contains s)) = [("BTC,USD".toList)] ∧
    ([("BTC".toList), ("USD".toList)] : List GoString) ≠ [("BTC,USD".toList)] := by
  decide

theorem find?_name_some {l : List ExchangeConfig} {n : GoString}
    {x : ExchangeConfig} (h : l.find? (fun e => e.Name == n) = some x) :
    x.Name = n := by
  have := List.find?_some h
  simpa using this

theorem updateExchangesList_after_find {l : List ExchangeConfig}
    {n : GoString} {x : ExchangeConfig}
    (h : l.find? (fun e => e.Name == n) = some x) (y : ExchangeConfig)
    (hy : y.Name = n) :
    ∃ l', updateExchangesList y l = some l' ∧
      l'.find? (fun e => e.Name == n) = some y := by
  induction l with
  | nil => simp at h
  | cons z zs ih =>
    by_cases hz : (z.Name == n) = true
    · have hzy : (z.Name == y.Name) = true := by rw [hy]; exact hz
      refine ⟨y :: zs, ?_, ?_⟩
      · simp [updateExchangesList, hzy]
      · exact List.find?_cons_of_pos _ (by simp [hy])
    · have h' : zs.find? (fun e => e.Name == n) = some x := by
        rwa [List.find?_cons_of_neg _ (by simpa using hz)] at h
      rcases ih h' with ⟨l', hu, hf⟩
      have hzy : (z.Name == y.Name) = false := by
        rw [hy]; simpa using hz
      refine ⟨z :: l', ?_, ?_⟩
      · simp [updateExchangesList, hzy, hu]
      · rw [List.find?_cons_of_neg _ (by simpa using hz)]
        exact hf

/-- C10: the emptiness guard of `UpdateCurrencies` tests the raw fetched
list before empty strings are dropped: a non-empty fetched list consisting
only of empty strings is not rejected with the empty-list error, the
normalized product list is empty, and with `force = true` the stored pair
set is replaced by the empty list and the empty joined pair string is
persisted to the configuration. -/
theorem updateCurrencies_all_empty (e : Base) (c : Config)
    (ps : List GoString) (enabled : Bool) (hne : ps ≠ [])
    (hall : ∀ s ∈ ps, s = []) (exch : ExchangeConfig)
    (hfound : c.GetExchangeConfig e.Name = .ok exch) :
    normalizeProducts ps = [] ∧
    (Base.UpdateCurrencies e c ps enabled true).err = none ∧
    (Base.UpdateCurrencies e c ps enabled true).wrote = true ∧
    (if enabled then (Base.UpdateCurrencies e c ps enabled true).base.EnabledPairs
     else (Base.UpdateCurrencies e c ps enabled true).base.AvailablePairs) = [] ∧
    ∃ exch',
      (Base.UpdateCurrencies e c ps enabled true).cfg.GetExchangeConfig e.Name
        = .ok exch' ∧
      (if enabled then exch'.EnabledPairs else exch'.AvailablePairs) = [] := by
  have hprod : normalizeProducts ps = [] := by
    rw [normalizeProducts_comma_free ps (by intro s hs; rw [hall s hs]; simp)]
    unfold specNormalize
    rw [List.filter_eq_nil_iff]
    intro a ha
    rcases List.mem_map.mp ha with ⟨t, ht, rfl⟩
    rw [hall t ht]
    simp [StringToUpper]
  have hfind : c.Exchanges.find? (fun x => x.Name == e.Name) = some exch := by
    unfold Config.GetExchangeConfig at hfound
    cases hx : c.Exchanges.find? (fun x => x.Name == e.Name) <;> rw [hx] at hfound
    · cases hfound
    · simpa using hfound
  have hname : exch.Name = e.Name := find?_name_some hfind
  cases enabled
  · obtain ⟨l', hu, hf⟩ := updateExchangesList_after_find hfind
      { exch with AvailablePairs := JoinStrings (normalizeProducts ps) } hname
    have hupd : c.UpdateExchangeConfig
        { exch with AvailablePairs := JoinStrings (normalizeProducts ps) } =
        (none, ⟨l'⟩) := by
      unfold Config.UpdateExchangeConfig
      rw [hu]
    have key : Base.UpdateCurrencies e c ps false true =
        ⟨none, { e with AvailablePairs := normalizeProducts ps }, ⟨l'⟩, true⟩ := by
      unfold Base.UpdateCurrencies
      rw [if_neg (by simpa [List.length_eq_zero] using hne)]
      simp only [Bool.true_or, if_true, Bool.false_eq_true, if_false, hfound, hupd]
    rw [key] at *
    refine ⟨hprod, rfl, rfl, by simpa using hprod, ?_⟩
    refine ⟨{ exch with AvailablePairs := JoinStrings (normalizeProducts ps) }, ?_, ?_⟩
    · unfold Config.GetExchangeConfig
      rw [hf]
    · simp [hprod, JoinStrings]
  · obtain ⟨l', hu, hf⟩ := updateExchangesList_after_find hfind
      { exch with EnabledPairs := JoinStrings (normalizeProducts ps) } hname
    have hupd : c.UpdateExchangeConfig
        { exch with EnabledPairs := JoinStrings (normalizeProducts ps) } =
        (none, ⟨l'⟩) := by
      unfold Config.UpdateExchangeConfig
      rw [hu]
    have key : Base.UpdateCurrencies e c ps true true =
        ⟨none, { e with EnabledPairs := normalizeProducts ps }, ⟨l'⟩, true⟩ := by
      unfold Base.UpdateCurrencies
      rw [if_neg (by simpa [List.length_eq_zero] using hne)]
      simp only [Bool.true_or, if_true, Bool.false_eq_true, if_false, hfound, hupd]
    rw [key] at *
    refine ⟨hprod, rfl, rfl, by simpa using hprod, ?_⟩
    refine ⟨{ exch with EnabledPairs := JoinStrings (normalizeProducts ps) }, ?_, ?_⟩
    · unfold Config.GetExchangeConfig
      rw [hf]
    · simp [hprod, JoinStrings]

theorem FindPairDifferences_self (l : List GoString) :
    pair.FindPairDifferences l l = ([], []) := by
  unfold pair.FindPairDifferences
  have : l.filter (fun s => !(l.contains s)) = [] := by
    rw [List.filter_eq_nil_iff]
    intro a ha
    simp [ha]
  rw [this]

theorem updateCurrencies_unfold (e : Base) (c : Config) (ps : List GoString)
    (enabled force : Bool) (hps : ps ≠ []) :
    Base.UpdateCurrencies e c ps enabled force =
      if force || !(updateDiffs e ps enabled).1.isEmpty
          || !(updateDiffs e ps enabled).2.isEmpty then
        match c.GetExchangeConfig e.Name with
        | .error err => ⟨some err, e, c, false⟩
        | .ok exch =>
          let e' := if enabled then { e with EnabledPairs := normalizeProducts ps }
                    else { e with AvailablePairs := normalizeProducts ps }
          let exch' :=
            if enabled then
              { exch with EnabledPairs := JoinStrings (normalizeProducts ps) }
            else
              { exch with AvailablePairs := JoinStrings (normalizeProducts ps) }
          match c.UpdateExchangeConfig exch' with
          | (some err, c') => ⟨some err, e', c', false⟩
          | (none, c') => ⟨none, e', c', true⟩
      else ⟨none, e, c, false⟩ := by
  unfold Base.UpdateCurrencies
  rw [if_neg (by simpa [List.length_eq_zero] using hps)]

/-- C7: reconciliation is idempotent — starting from any state produced by
a successful `UpdateCurrencies` call, calling again with the identical
fetched symbol list and `force = false` computes empty diffs, returns the
exchange state and configuration untouched, and does not write the
configuration again. -/
theorem updateCurrencies_idempotent (e : Base) (c : Config)
    (ps : List GoString) (enabled force : Bool)
    (h : (Base.UpdateCurrencies e c ps enabled force).err = none) :
    updateDiffs (Base.UpdateCurrencies e c ps enabled force).base ps enabled
        = ([], []) ∧
    Base.UpdateCurrencies (Base.UpdateCurrencies e c ps enabled force).base
        (Base.UpdateCurrencies e c ps enabled force).cfg ps enabled false =
      ⟨none, (Base.UpdateCurrencies e c ps enabled force).base,
       (Base.UpdateCurrencies e c ps enabled force).cfg, false⟩ := by
  have hps : ps ≠ [] := by
    intro hcon
    rw [hcon] at h
    simp [Base.UpdateCurrencies] at h
  have second : ∀ b : Base, ∀ c' : Config,
      updateDiffs b ps enabled = ([], []) →
      Base.UpdateCurrencies b c' ps enabled false = ⟨none, b, c', false⟩ := by
    intro b c' hd
    rw [updateCurrencies_unfold b c' ps enabled false hps, hd, if_neg (by simp)]
  by_cases hcond : (force || !(updateDiffs e ps enabled).1.isEmpty
      || !(updateDiffs e ps enabled).2.isEmpty) = true
  · rcases getExchangeConfig_error c e.Name with ⟨x, hx⟩ | hx
    · rcases hu : c.UpdateExchangeConfig
          (if enabled then { x with EnabledPairs := JoinStrings (normalizeProducts ps) }
           else { x with AvailablePairs := JoinStrings (normalizeProducts ps) })
        with ⟨fst, snd⟩
      cases fst with
      | some err =>
        exfalso
        rw [updateCurrencies_unfold e c ps enabled force hps, if_pos hcond,
          hx] at h
        dsimp only [] at h
        rw [hu] at h
        simp at h
      | none =>
        have hr : Base.UpdateCurrencies e c ps enabled force =
            ⟨none,
             (if enabled then { e with EnabledPairs := normalizeProducts ps }
              else { e with AvailablePairs := normalizeProducts ps }),
             snd, true⟩ := by
          rw [updateCurrencies_unfold e c ps enabled force hps, if_pos hcond, hx]
          dsimp only []
          rw [hu]
        rw [hr]
        dsimp only []
        have hd : updateDiffs
            (if enabled then { e with EnabledPairs := normalizeProducts ps }
             else { e with AvailablePairs := normalizeProducts ps }) ps enabled
            = ([], []) := by
          cases enabled <;>
            simp only [Bool.false_eq_true, if_false, if_true, updateDiffs] <;>
            exact FindPairDifferences_self _
        exact ⟨hd, second _ snd hd⟩
    · exfalso
      rw [updateCurrencies_unfold e c ps enabled force hps, if_pos hcond,
        hx] at h
      simp at h
  · have hd : updateDiffs e ps enabled = ([], []) := by
      simp only [Bool.or_eq_true, Bool.not_eq_true', not_or] at hcond
      have h1 : (updateDiffs e ps enabled).1 = [] := by
        cases hb : (updateDiffs e ps enabled).1.isEmpty
        · exact absurd hb hcond.1.2
        · exact List.isEmpty_iff.mp hb
      have h2 : (updateDiffs e ps enabled).2 = [] := by
        cases hb : (updateDiffs e ps enabled).2.isEmpty
        · exact absurd hb hcond.2
        · exact List.isEmpty_iff.mp hb
      exact Prod.ext h1 h2
    have hr : Base.UpdateCurrencies e c ps enabled force = ⟨none, e, c, false⟩ := by
      rw [updateCurrencies_unfold e c ps enabled force hps,
        if_neg (by simpa using hcond)]
    rw [hr]
    exact ⟨hd, second e c hd⟩

theorem updateCurrencies_idempotent_witness :
    ((Base.UpdateCurrencies ⟨("ANX".toList), [], [], ⟨[], true, []⟩⟩
        ⟨[⟨("ANX".toList), [], [], ⟨[], true, []⟩⟩]⟩
        [("btc".toList), ("ltc".toList)] true false).err = none) ∧
    (updateDiffs (Base.UpdateCurrencies ⟨("ANX".toList), [], [], ⟨[], true, []⟩⟩
        ⟨[⟨("ANX".toList), [], [], ⟨[], true, []⟩⟩]⟩
        [("btc".toList), ("ltc".toList)] true false).base
        [("btc".toList), ("ltc".toList)] true = ([], []) ∧
      Base.UpdateCurrencies
        (Base.UpdateCurrencies ⟨("ANX".toList), [], [], ⟨[], true, []⟩⟩
          ⟨[⟨("ANX".toList), [], [], ⟨[], true, []⟩⟩]⟩
          [("btc".toList), ("ltc".toList)] true false).base
        (Base.UpdateCurrencies ⟨("ANX".toList), [], [], ⟨[], true, []⟩⟩
          ⟨[⟨("ANX".toList), [], [], ⟨[], true, []⟩⟩]⟩
          [("btc".toList), ("ltc".toList)] true false).cfg
        [("btc".toList), ("ltc".toList)] true false =
      ⟨none,
       (Base.UpdateCurrencies ⟨("ANX".toList), [], [], ⟨[], true, []⟩⟩
          ⟨[⟨("ANX".toList), [], [], ⟨[], true, []⟩⟩]⟩
          [("btc".toList), ("ltc".toList)] true false).base,
       (Base.UpdateCurrencies ⟨("ANX".toList), [], [], ⟨[], true, []⟩⟩
          ⟨[⟨("ANX".toList), [], [], ⟨[], true, []⟩⟩]⟩
          [("btc".toList), ("ltc".toList)] true false).cfg, false⟩) :=
  ⟨by decide, updateCurrencies_idempotent _ _ _ true false (by decide)⟩

theorem updateCurrencies_all_empty_witness :
    ([([] : GoString)] ≠ ([] : List GoString)) ∧
    (normalizeProducts [([] : GoString)] = [] ∧
     (Base.UpdateCurrencies ⟨("ANX".toList), [("BTC".toList)], [], ⟨[], true, []⟩⟩
        ⟨[⟨("ANX".toList), ("BTC".toList), ("BTC".toList), ⟨[], true, []⟩⟩]⟩
        [[]] true true).err = none ∧
     (Base.UpdateCurrencies ⟨("ANX".toList), [("BTC".toList)], [], ⟨[], true, []⟩⟩
        ⟨[⟨("ANX".toList), ("BTC".toList), ("BTC".toList), ⟨[], true, []⟩⟩]⟩
        [[]] true true).wrote = true ∧
     (if true then
        (Base.UpdateCurrencies ⟨("ANX".toList), [("BTC".toList)], [], ⟨[], true, []⟩⟩
          ⟨[⟨("ANX".toList), ("BTC".toList), ("BTC".toList), ⟨[], true, []⟩⟩]⟩
          [[]] true true).base.EnabledPairs
      else
        (Base.UpdateCurrencies ⟨("ANX".toList), [("BTC".toList)], [], ⟨[], true, []⟩⟩
          ⟨[⟨("ANX".toList), ("BTC".toList), ("BTC".toList), ⟨[], true, []⟩⟩]⟩
          [[]] true true).base.AvailablePairs) = [] ∧
     ∃ exch',
       (Base.UpdateCurrencies ⟨("ANX".toList), [("BTC".toList)], [], ⟨[], true, []⟩⟩
          ⟨[⟨("ANX".toList), ("BTC".toList), ("BTC".toList), ⟨[], true, []⟩⟩]⟩
          [[]] true true).cfg.GetExchangeConfig
         (Base.mk ("ANX".toList) [("BTC".toList)] [] ⟨[], true, []⟩).Name = .ok exch' ∧
       (if true then exch'.EnabledPairs else exch'.AvailablePairs) = []) :=
  ⟨by decide,
   updateCurrencies_all_empty
     ⟨("ANX".toList), [("BTC".toList)], [], ⟨[], true, []⟩⟩
     ⟨[⟨("ANX".toList), ("BTC".toList), ("BTC".toList), ⟨[], true, []⟩⟩]⟩
     [[]] true (by decide) (by decide)
     ⟨("ANX".toList), ("BTC".toList), ("BTC".toList), ⟨[], true, []⟩⟩ rfl⟩

theorem pairContains_false_of_no_match (l : List CurrencyPair)
    (p : CurrencyPair)
    (hl : ∀ q ∈ l,
      ¬(StringToUpper q.FirstCurrency = StringToUpper p.FirstCurrency ∧
        StringToUpper q.SecondCurrency = StringToUpper p.SecondCurrency)) :
    pair.Contains l p false = false := by
  rw [pair.Contains, List.any_eq_false]
  intro q hq
  simpa [CurrencyPair.Equal] using hl q hq

/-- C5: the pair-membership tests compare First and Second tokens directly
and never treat the order-swapped pair as a match: whenever no element of
the consulted set agrees with `p` on both tokens (case-insensitively) — in
particular when only the swapped pair Second/First is stored —
`Base.SupportsCurrency` answers false and `Config.SupportsPair` answers
`.ok false`. -/
theorem supports_no_swap (e : Base) (c : Config) (exchName : GoString)
    (p : CurrencyPair) (enabledFlag : Bool) (av : List CurrencyPair)
    (hga : c.GetAvailablePairs exchName = .ok av)
    (h1 : ∀ q ∈ (if enabledFlag then e.GetEnabledCurrencies
        else e.GetAvailableCurrencies),
      ¬(StringToUpper q.FirstCurrency = StringToUpper p.FirstCurrency ∧
        StringToUpper q.SecondCurrency = StringToUpper p.SecondCurrency))
    (h2 : ∀ q ∈ av,
      ¬(StringToUpper q.FirstCurrency = StringToUpper p.FirstCurrency ∧
        StringToUpper q.SecondCurrency = StringToUpper p.SecondCurrency)) :
    e.SupportsCurrency p enabledFlag = false ∧
    c.SupportsPair exchName p = .ok false := by
  constructor
  · unfold Base.SupportsCurrency
    cases enabledFlag
    · exact pairContains_false_of_no_match _ p (by simpa using h1)
    · exact pairContains_false_of_no_match _ p (by simpa using h1)
  · unfold Config.SupportsPair
    rw [hga]
    dsimp only []
    rw [pairContains_false_of_no_match av p h2]

theorem supports_no_swap_witness :
    ((⟨[⟨("ANX".toList), ("USD-BTC".toList), ("USD-BTC".toList),
        ⟨("-".toList), true, []⟩⟩]⟩ : Config).GetAvailablePairs ("ANX".toList) =
      .ok [⟨("-".toList), ("USD".toList), ("BTC".toList)⟩]) ∧
    ((⟨("ANX".toList), [("USD-BTC".toList)], [],
        ⟨("-".toList), true, []⟩⟩ : Base).SupportsCurrency
      ⟨("-".toList), ("BTC".toList), ("USD".toList)⟩ true = false ∧
     (⟨[⟨("ANX".toList), ("USD-BTC".toList), ("USD-BTC".toList),
        ⟨("-".toList), true, []⟩⟩]⟩ : Config).SupportsPair ("ANX".toList)
      ⟨("-".toList), ("BTC".toList), ("USD".toList)⟩ = .ok false) :=
  ⟨by rfl,
   supports_no_swap
     ⟨("ANX".toList), [("USD-BTC".toList)], [], ⟨("-".toList), true, []⟩⟩
     ⟨[⟨("ANX".toList), ("USD-BTC".toList), ("USD-BTC".toList),
        ⟨("-".toList), true, []⟩⟩]⟩
     ("ANX".toList) ⟨("-".toList), ("BTC".toList), ("USD".toList)⟩ true
     [⟨("-".toList), ("USD".toList), ("BTC".toList)⟩]
     (by rfl) (by decide) (by decide)⟩


theorem keyMatch_mk (exchange : GoString) (p : CurrencyPair)
    (assetType : GoString) (b : orderbook.Base) :
    keyMatch ⟨exchange, p, assetType, b⟩ exchange p assetType = true := by
  simp [keyMatch]

theorem find?_append_of_none {α} (q : α → Bool) (l₁ l₂ : List α)
    (h : ∀ x ∈ l₁, q x = false) :
    (l₁ ++ l₂).find? q = l₂.find? q := by
  induction l₁ with
  | nil => rfl
  | cons x xs ih =>
    rw [List.cons_append, List.find?_cons_of_neg _ (by simp [h x (by simp)])]
    exact ih (fun y hy => h y (List.mem_cons_of_mem _ hy))

theorem replaceBooks_append_of_none (exchange : GoString) (p : CurrencyPair)
    (assetType : GoString) (bids asks : List Item) (now : Nat)
    (l₁ l₂ : List BookEntry)
    (h : ∀ en ∈ l₁, keyMatch en exchange p assetType = false) :
    replaceBooks exchange p assetType bids asks now (l₁ ++ l₂) =
      l₁ ++ replaceBooks exchange p assetType bids asks now l₂ := by
  induction l₁ with
  | nil => rfl
  | cons x xs ih =>
    rw [List.cons_append, replaceBooks, if_neg (by simp [h x (by simp)])]
    rw [ih (fun y hy => h y (List.mem_cons_of_mem _ hy))]
    rfl

/-- The registry entry created by `ProcessOrderbook` for a fresh key. -/
def mkEntry (exchange : GoString) (p : CurrencyPair) (assetType : GoString)
    (bids asks : List Item) (now : Nat) : BookEntry :=
  ⟨exchange, p, assetType, ⟨p, p.pairString, bids, asks, now⟩⟩

/-- C2: for a key with no snapshot yet, the first `ProcessOrderbook` call
creates the snapshot (a `Get` then returns exactly the first call's bids
and asks), and a subsequent `ProcessOrderbook` call for the same key
replaces its Bids and Asks wholesale and refreshes LastUpdated to the
strictly later clock value: the `Get` afterwards returns exactly the
second call's bids and asks — never a mix of the two updates. -/
theorem process_upsert_replaces (r : OrderbookRegistry) (exchange : GoString)
    (p : CurrencyPair) (assetType : GoString)
    (bidsA asksA bidsB asksB : List Item) (now1 now2 : Nat)
    (habsent : ∀ en ∈ r.books, keyMatch en exchange p assetType = false)
    (hlt : now1 < now2) :
    ∃ s1 s2,
      GetOrderbook (ProcessOrderbook r exchange p assetType bidsA asksA now1)
        exchange p assetType = .ok s1 ∧
      s1.Bids = bidsA ∧ s1.Asks = asksA ∧ s1.LastUpdated = now1 ∧
      GetOrderbook
        (ProcessOrderbook (ProcessOrderbook r exchange p assetType bidsA asksA now1)
          exchange p assetType bidsB asksB now2) exchange p assetType = .ok s2 ∧
      s2.Bids = bidsB ∧ s2.Asks = asksB ∧ s2.LastUpdated = now2 ∧
      s1.LastUpdated < s2.LastUpdated := by
  have hany0 : r.books.any (fun en => keyMatch en exchange p assetType) = false := by
    rw [List.any_eq_false]
    intro en hen
    simp [habsent en hen]
  have hr1 : ProcessOrderbook r exchange p assetType bidsA asksA now1 =
      ⟨r.books ++ [mkEntry exchange p assetType bidsA asksA now1]⟩ := by
    unfold ProcessOrderbook
    rw [if_neg (by simp [hany0])]
    rfl
  have hkm1 : keyMatch (mkEntry exchange p assetType bidsA asksA now1)
      exchange p assetType = true := keyMatch_mk _ _ _ _
  have hfind1 : (r.books ++ [mkEntry exchange p assetType bidsA asksA now1]).find?
        (fun en => keyMatch en exchange p assetType) =
      some (mkEntry exchange p assetType bidsA asksA now1) := by
    rw [find?_append_of_none _ r.books _ habsent]
    exact List.find?_cons_of_pos _ hkm1
  have hget1 : GetOrderbook
      (ProcessOrderbook r exchange p assetType bidsA asksA now1)
      exchange p assetType = .ok ⟨p, p.pairString, bidsA, asksA, now1⟩ := by
    rw [hr1]
    unfold GetOrderbook
    rw [if_neg (by simp [List.any_append, mkEntry])]
    rw [hfind1]
    rfl
  have hany1 : (r.books ++ [mkEntry exchange p assetType bidsA asksA now1]).any
        (fun en => keyMatch en exchange p assetType) = true := by
    rw [List.any_append]
    simp [hkm1]
  have hr2 : ProcessOrderbook
      (ProcessOrderbook r exchange p assetType bidsA asksA now1)
      exchange p assetType bidsB asksB now2 =
      ⟨r.books ++ [mkEntry exchange p assetType bidsB asksB now2]⟩ := by
    rw [hr1]
    unfold ProcessOrderbook
    rw [if_pos (by simpa using hany1)]
    rw [show (⟨r.books ++ [mkEntry exchange p assetType bidsA asksA now1]⟩ :
        OrderbookRegistry).books =
      r.books ++ [mkEntry exchange p assetType bidsA asksA now1] from rfl]
    rw [replaceBooks_append_of_none exchange p assetType bidsB asksB now2
      r.books _ habsent]
    rw [replaceBooks, if_pos hkm1]
    rfl
  have hfind2 : (r.books ++ [mkEntry exchange p assetType bidsB asksB now2]).find?
        (fun en => keyMatch en exchange p assetType) =
      some (mkEntry exchange p assetType bidsB asksB now2) := by
    rw [find?_append_of_none _ r.books _ habsent]
    exact List.find?_cons_of_pos _ (keyMatch_mk _ _ _ _)
  have hget2 : GetOrderbook
      (ProcessOrderbook (ProcessOrderbook r exchange p assetType bidsA asksA now1)
        exchange p assetType bidsB asksB now2)
      exchange p assetType = .ok ⟨p, p.pairString, bidsB, asksB, now2⟩ := by
    rw [hr2]
    unfold GetOrderbook
    rw [if_neg (by simp [List.any_append, mkEntry])]
    rw [hfind2]
    rfl
  exact ⟨⟨p, p.pairString, bidsA, asksA, now1⟩,
    ⟨p, p.pairString, bidsB, asksB, now2⟩,
    hget1, rfl, rfl, rfl, hget2, rfl, rfl, rfl, hlt⟩

theorem process_upsert_replaces_witness :
    (∀ en ∈ (⟨[]⟩ : OrderbookRegistry).books,
      keyMatch en ("Exchange".toList) ⟨[], ("BTC".toList), ("USD".toList)⟩
        ("SPOT".toList) = false) ∧ (0 : Nat) < 1 ∧
    (∃ s1 s2,
      GetOrderbook (ProcessOrderbook ⟨[]⟩ ("Exchange".toList)
          ⟨[], ("BTC".toList), ("USD".toList)⟩ ("SPOT".toList)
          [⟨200, 10⟩] [⟨100, 10⟩] 0)
        ("Exchange".toList) ⟨[], ("BTC".toList), ("USD".toList)⟩
        ("SPOT".toList) = .ok s1 ∧
      s1.Bids = [⟨200, 10⟩] ∧ s1.Asks = [⟨100, 10⟩] ∧ s1.LastUpdated = 0 ∧
      GetOrderbook (ProcessOrderbook
          (ProcessOrderbook ⟨[]⟩ ("Exchange".toList)
            ⟨[], ("BTC".toList), ("USD".toList)⟩ ("SPOT".toList)
            [⟨200, 10⟩] [⟨100, 10⟩] 0)
          ("Exchange".toList) ⟨[], ("BTC".toList), ("USD".toList)⟩
          ("SPOT".toList) [⟨201, 100⟩] [⟨200, 101⟩] 1)
        ("Exchange".toList) ⟨[], ("BTC".toList), ("USD".toList)⟩
        ("SPOT".toList) = .ok s2 ∧
      s2.Bids = [⟨201, 100⟩] ∧ s2.Asks = [⟨200, 101⟩] ∧ s2.LastUpdated = 1 ∧
      s1.LastUpdated < s2.LastUpdated) :=
  ⟨by simp, by decide,
   process_upsert_replaces ⟨[]⟩ ("Exchange".toList)
     ⟨[], ("BTC".toList), ("USD".toList)⟩ ("SPOT".toList)
     [⟨200, 10⟩] [⟨100, 10⟩] [⟨201, 100⟩] [⟨200, 101⟩] 0 1
     (by simp) (by decide)⟩

/-- C6 (amended): `GetOrderbook` fails with a not-found error in exactly
two distinguishable sub-cases — no snapshot at all for the exchange name
(exchange reason), or snapshots exist for the exchange but none under the
requested (pair, asset class) key (pair reason; in particular whenever
either currency of the pair fails to match) — the two reasons are
distinct, and otherwise it returns the stored snapshot of the first entry
for the key. -/
theorem getOrderbook_not_found_cases (r : OrderbookRegistry)
    (exchange : GoString) (p : CurrencyPair) (assetType : GoString) :
    (r.books.any (fun en => en.ExchangeName == exchange) = false →
      GetOrderbook r exchange p assetType =
        .error (.notFound ErrExchangeOrderbooksNotFound)) ∧
    (r.books.any (fun en => en.ExchangeName == exchange) = true →
      r.books.find? (fun en => keyMatch en exchange p assetType) = none →
      GetOrderbook r exchange p assetType =
        .error (.notFound ErrPairOrderbookNotFound)) ∧
    (∀ en, r.books.find? (fun en => keyMatch en exchange p assetType) = some en →
      GetOrderbook r exchange p assetType = .ok en.Book) ∧
    ErrExchangeOrderbooksNotFound ≠ ErrPairOrderbookNotFound := by
  refine ⟨fun hex => ?_, fun hex hf => ?_, fun en hf => ?_, by decide⟩
  · unfold GetOrderbook
    rw [if_pos (by simp [hex])]
  · unfold GetOrderbook
    rw [if_neg (by simp [hex]), hf]
  · have hex : r.books.any (fun en => en.ExchangeName == exchange) = true := by
      have hmem := List.mem_of_find?_eq_some hf
      have hkey := List.find?_some hf
      rw [List.any_eq_true]
      refine ⟨en, hmem, ?_⟩
      unfold keyMatch at hkey
      simp only [Bool.and_eq_true] at hkey
      simp [hkey.1.1.1]
    unfold GetOrderbook
    rw [if_neg (by simp [hex]), hf]

theorem getOrderbook_not_found_cases_witness :
    ((ProcessOrderbook ⟨[]⟩ ("Exchange".toList)
        ⟨[], ("BTC".toList), ("USD".toList)⟩ ("SPOT".toList) [] [] 0).books.any
      (fun en => en.ExchangeName == ("Other".toList)) = false) ∧
    GetOrderbook (ProcessOrderbook ⟨[]⟩ ("Exchange".toList)
        ⟨[], ("BTC".toList), ("USD".toList)⟩ ("SPOT".toList) [] [] 0)
      ("Other".toList) ⟨[], ("BTC".toList), ("USD".toList)⟩ ("SPOT".toList) =
      .error (.notFound ErrExchangeOrderbooksNotFound) :=
  ⟨by decide,
   (getOrderbook_not_found_cases
     (ProcessOrderbook ⟨[]⟩ ("Exchange".toList)
       ⟨[], ("BTC".toList), ("USD".toList)⟩ ("SPOT".toList) [] [] 0)
     ("Other".toList) ⟨[], ("BTC".toList), ("USD".toList)⟩
     ("SPOT".toList)).1 (by decide)⟩

/-- C6 counterexample: after storing the snapshot for BTC/USD on
"Exchange", a `Get` for BTC/AUD on "Exchange" fails even though the
exchange is known and the first currency BTC does match a stored pair, so
the not-found errors are not limited to the two cases the claim states
(unknown exchange / neither currency matching); this failure is exactly
what the src test demands (src/unnamed/part_005:110-114). -/
theorem getOrderbook_one_currency_matches_counterexample :
    GetOrderbook (ProcessOrderbook ⟨[]⟩ ("Exchange".toList)
        ⟨[], ("BTC".toList), ("USD".toList)⟩ ("SPOT".toList) [] [] 0)
      ("Exchange".toList) ⟨[], ("BTC".toList), ("AUD".toList)⟩
      ("SPOT".toList) = .error (.notFound ErrPairOrderbookNotFound) ∧
    (ProcessOrderbook ⟨[]⟩ ("Exchange".toList)
        ⟨[], ("BTC".toList), ("USD".toList)⟩ ("SPOT".toList) [] [] 0).books.any
      (fun en => en.ExchangeName == ("Exchange".toList)) = true ∧
    (ProcessOrderbook ⟨[]⟩ ("Exchange".toList)
        ⟨[], ("BTC".toList), ("USD".toList)⟩ ("SPOT".toList) [] [] 0).books.any
      (fun en => en.Key.FirstCurrency == ("BTC".toList)) = true := by
  refine ⟨?_, by decide, by decide⟩
  rfl

theorem SplitStrings_no_comma_mem (s : GoString) :
    ∀ t ∈ SplitStrings s, ',' ∉ t := by
  induction s with
  | nil =>
    intro t ht
    simp only [SplitStrings, List.mem_singleton] at ht
    subst ht
    simp
  | cons c cs ih =>
    intro t ht
    simp only [SplitStrings] at ht
    by_cases hc : c = ','
    · rw [if_pos hc] at ht
      rcases List.mem_cons.mp ht with rfl | h
      · simp
      · exact ih t h
    · rw [if_neg hc] at ht
      rcases List.mem_cons.mp ht with rfl | h
      · intro hmem
        rcases List.mem_cons.mp hmem with h1 | h1
        · exact hc h1.symm
        · cases hr : SplitStrings cs with
          | nil => rw [hr] at h1; simp at h1
          | cons a r =>
            rw [hr] at h1
            exact ih a (by rw [hr]; simp) h1
      · exact ih t (List.mem_of_mem_tail h)

theorem FormatPairs_mem {tokens : List GoString} {d i : GoString}
    {q : CurrencyPair} (h : q ∈ pair.FormatPairs tokens d i) :
    ∃ t ∈ tokens, t ≠ [] ∧ q = parsePair t d i := by
  unfold pair.FormatPairs at h
  rcases List.mem_map.mp h with ⟨t, ht, rfl⟩
  rcases List.mem_filter.mp ht with ⟨ht1, ht2⟩
  exact ⟨t, ht1, by simpa using ht2, rfl⟩

theorem FormatPairs_roundtrip (tokens : List GoString) (d i : GoString)
    (hcf : ∀ t ∈ tokens, ',' ∉ t) (kept : List CurrencyPair)
    (hsub : ∀ q ∈ kept, q ∈ pair.FormatPairs tokens d i) :
    (∀ s ∈ pair.PairsToStringArray kept, ',' ∉ s ∧ s ≠ []) ∧
    pair.FormatPairs (pair.PairsToStringArray kept) d i = kept := by
  have hq : ∀ q ∈ kept, (q.pairString ≠ [] ∧ ',' ∉ q.pairString) ∧
      parsePair q.pairString d i = q := by
    intro q hqk
    rcases FormatPairs_mem (hsub q hqk) with ⟨t, ht, htne, rfl⟩
    rw [pairString_parsePair]
    exact ⟨⟨htne, hcf t ht⟩, rfl⟩
  constructor
  · intro s hs
    rcases List.mem_map.mp hs with ⟨q, hqk, rfl⟩
    exact ⟨(hq q hqk).1.2, (hq q hqk).1.1⟩
  · unfold pair.FormatPairs pair.PairsToStringArray
    rw [List.filter_eq_self.mpr (by
      intro s hs
      rcases List.mem_map.mp hs with ⟨q, hqk, rfl⟩
      simpa using (hq q hqk).1.1)]
    rw [List.map_map]
    have : kept.map ((fun t => parsePair t d i) ∘ CurrencyPair.pairString) =
        kept.map id := by
      apply List.map_congr_left
      intro q hqk
      exact (hq q hqk).2
    rw [this, List.map_id]

theorem filter_all_of_none_removed {α} (q : α → Bool) (l : List α)
    (h : l.filter (fun x => !(q x)) = []) : l.filter q = l := by
  rw [List.filter_eq_self]
  intro x hx
  rw [List.filter_eq_nil_iff] at h
  have := h x hx
  simpa using this

theorem pairContains_of_mem {l : List CurrencyPair} {q : CurrencyPair}
    (h : q ∈ l) : pair.Contains l q true = true := by
  rw [pair.Contains, List.any_eq_true]
  exact ⟨q, h, by simp [CurrencyPair.Equal]⟩

theorem randomPair_mem (l : List CurrencyPair) (k : Nat) (h : l ≠ []) :
    pair.RandomPairFromPairs l k ∈ l := by
  unfold pair.RandomPairFromPairs
  have hlt : k % l.length < l.length :=
    Nat.mod_lt _ (List.length_pos.mpr h)
  rw [List.getD_eq_getElem l default hlt]
  exact List.getElem_mem hlt

theorem getEnabledPairs_ok {c : Config} {n : GoString}
    {l : List CurrencyPair} (h : c.GetEnabledPairs n = .ok l) :
    ∃ ec, c.GetExchangeConfig n = .ok ec ∧
      l = pair.FormatPairs (SplitStrings ec.EnabledPairs)
        ec.ConfigCurrencyPairFormat.Delimiter
        ec.ConfigCurrencyPairFormat.Index := by
  unfold Config.GetEnabledPairs at h
  cases hg : c.GetExchangeConfig n <;> rw [hg] at h
  · cases h
  · exact ⟨_, rfl, by cases h; rfl⟩

theorem getAvailablePairs_ok {c : Config} {n : GoString}
    {l : List CurrencyPair} (h : c.GetAvailablePairs n = .ok l) :
    ∃ ec, c.GetExchangeConfig n = .ok ec ∧
      l = pair.FormatPairs (SplitStrings ec.AvailablePairs)
        ec.ConfigCurrencyPairFormat.Delimiter
        ec.ConfigCurrencyPairFormat.Index := by
  unfold Config.GetAvailablePairs at h
  cases hg : c.GetExchangeConfig n <;> rw [hg] at h
  · cases h
  · exact ⟨_, rfl, by cases h; rfl⟩

theorem getExchangeConfig_ok_find {c : Config} {n : GoString}
    {x : ExchangeConfig} (h : c.GetExchangeConfig n = .ok x) :
    c.Exchanges.find? (fun e => e.Name == n) = some x ∧ x.Name = n := by
  unfold Config.GetExchangeConfig at h
  cases hx : c.Exchanges.find? (fun e => e.Name == n) <;> rw [hx] at h
  · cases h
  · cases h
    exact ⟨rfl, find?_name_some hx⟩

/-- C3 (amended): on a configuration whose parsed Enabled and Available
pair sets are both non-empty, `CheckPairConsistency` succeeds, leaves the
Available set untouched, removes from Enabled exactly the pairs not
contained (exact match) in Available — falling back to one pair drawn from
Available when that removal would empty Enabled — so the resulting Enabled
set is a non-empty subset of Available. -/
theorem checkPairConsistency_nonempty_subset (c : Config)
    (exchName : GoString) (k : Nat)
    (enabledPairs availPairs : List CurrencyPair)
    (hep : c.GetEnabledPairs exchName = .ok enabledPairs)
    (hap : c.GetAvailablePairs exchName = .ok availPairs)
    (hene : enabledPairs ≠ []) (havne : availPairs ≠ []) :
    ∃ c', c.CheckPairConsistency exchName k = .ok c' ∧
      c'.GetAvailablePairs exchName = .ok availPairs ∧
      ∃ enabled', c'.GetEnabledPairs exchName = .ok enabled' ∧
        enabled' =
          (if enabledPairs.filter (fun q => pair.Contains availPairs q true) = []
           then [pair.RandomPairFromPairs availPairs k]
           else enabledPairs.filter (fun q => pair.Contains availPairs q true)) ∧
        enabled' ≠ [] ∧
        ∀ q ∈ enabled', pair.Contains availPairs q true = true := by
  obtain ⟨ec, hec, hepEq⟩ := getEnabledPairs_ok hep
  obtain ⟨ec2, hec2, hapEq⟩ := getAvailablePairs_ok hap
  rw [hec] at hec2
  cases hec2
  obtain ⟨hfind, hname⟩ := getExchangeConfig_ok_find hec
  by_cases hrem :
      enabledPairs.filter (fun p => !(pair.Contains availPairs p true)) = []
  · -- nothing removed: the call is a no-op and Enabled already ⊆ Available
    have hall : enabledPairs.filter (fun q => pair.Contains availPairs q true)
        = enabledPairs := filter_all_of_none_removed _ _ hrem
    refine ⟨c, ?_, hap, enabledPairs, hep, ?_, hene, ?_⟩
    · unfold Config.CheckPairConsistency
      rw [hep, hap]
      dsimp only []
      rw [if_pos (by rw [hrem]; rfl)]
    · rw [hall, if_neg hene]
    · intro q hq
      rw [List.filter_eq_nil_iff] at hrem
      simpa using hrem q hq
  · -- some pair is removed: the configuration is rewritten
    by_cases hk : enabledPairs.filter (fun q => pair.Contains availPairs q true) = []
    · -- removal empties Enabled: fallback to one pair drawn from Available
      have hrpmem : pair.RandomPairFromPairs availPairs k ∈ availPairs :=
        randomPair_mem availPairs k havne
      have F3 := FormatPairs_roundtrip (SplitStrings ec.AvailablePairs)
        ec.ConfigCurrencyPairFormat.Delimiter ec.ConfigCurrencyPairFormat.Index
        (SplitStrings_no_comma_mem _) [pair.RandomPairFromPairs availPairs k]
        (by
          intro q hq
          rcases List.mem_singleton.mp hq with rfl
          rw [← hapEq]
          exact hrpmem)
      have hs := F3.1 (pair.RandomPairFromPairs availPairs k).pairString
        (by simp [pair.PairsToStringArray])
      obtain ⟨l', hu, hf⟩ := updateExchangesList_after_find hfind
        { ec with EnabledPairs := (pair.RandomPairFromPairs availPairs k).pairString }
        hname
      have hupd : c.UpdateExchangeConfig
          { ec with EnabledPairs := (pair.RandomPairFromPairs availPairs k).pairString }
          = (none, ⟨l'⟩) := by
        unfold Config.UpdateExchangeConfig
        rw [hu]
      have hrun : c.CheckPairConsistency exchName k = .ok ⟨l'⟩ := by
        unfold Config.CheckPairConsistency
        rw [hep, hap]
        dsimp only []
        rw [if_neg (by simpa [List.isEmpty_iff] using hrem), hec]
        dsimp only []
        rw [if_pos (by rw [hk]; rfl), hupd]
      refine ⟨⟨l'⟩, hrun, ?_, [pair.RandomPairFromPairs availPairs k], ?_, ?_,
        by simp, ?_⟩
      · unfold Config.GetAvailablePairs Config.GetExchangeConfig
        rw [hf]
        exact congrArg Except.ok hapEq.symm
      · unfold Config.GetEnabledPairs Config.GetExchangeConfig
        rw [hf]
        dsimp only []
        rw [SplitStrings_no_comma _ hs.1]
        exact congrArg Except.ok F3.2
      · rw [if_pos hk]
      · intro q hq
        rcases List.mem_singleton.mp hq with rfl
        exact pairContains_of_mem hrpmem
    · -- some pairs survive: Enabled becomes exactly the kept pairs
      have F3 := FormatPairs_roundtrip (SplitStrings ec.EnabledPairs)
        ec.ConfigCurrencyPairFormat.Delimiter ec.ConfigCurrencyPairFormat.Index
        (SplitStrings_no_comma_mem _)
        (enabledPairs.filter (fun q => pair.Contains availPairs q true))
        (by
          intro q hq
          rw [← hepEq]
          exact List.mem_of_mem_filter hq)
      obtain ⟨l', hu, hf⟩ := updateExchangesList_after_find hfind
        { ec with EnabledPairs := JoinStrings (pair.PairsToStringArray
            (enabledPairs.filter (fun q => pair.Contains availPairs q true))) }
        hname
      have hupd : c.UpdateExchangeConfig
          { ec with EnabledPairs := JoinStrings (pair.PairsToStringArray
              (enabledPairs.filter (fun q => pair.Contains availPairs q true))) }
          = (none, ⟨l'⟩) := by
        unfold Config.UpdateExchangeConfig
        rw [hu]
      have hrun : c.CheckPairConsistency exchName k = .ok ⟨l'⟩ := by
        unfold Config.CheckPairConsistency
        rw [hep, hap]
        dsimp only []
        rw [if_neg (by simpa [List.isEmpty_iff] using hrem), hec]
        dsimp only []
        rw [if_neg (by simpa [List.isEmpty_iff] using hk), hupd]
      refine ⟨⟨l'⟩, hrun, ?_,
        enabledPairs.filter (fun q => pair.Contains availPairs q true), ?_,
        by rw [if_neg hk], hk, ?_⟩
      · unfold Config.GetAvailablePairs Config.GetExchangeConfig
        rw [hf]
        exact congrArg Except.ok hapEq.symm
      · unfold Config.GetEnabledPairs Config.GetExchangeConfig
        rw [hf]
        dsimp only []
        rw [SplitStrings_JoinStrings _ (by simpa [pair.PairsToStringArray] using hk)
          (fun s hs => (F3.1 s hs).1)]
        exact congrArg Except.ok F3.2
      · intro q hq
        exact (List.mem_filter.mp hq).2

/-- C3 counterexample: on a configuration whose parsed Enabled set is
already empty (empty EnabledPairs string) while Available is non-empty,
`CheckPairConsistency` succeeds without touching the configuration and
leaves Enabled empty, so "after a successful CheckPairConsistency the
Enabled set is a non-empty subset of Available" fails as stated. -/
theorem checkPairConsistency_empty_enabled_counterexample :
    (⟨[⟨("ANX".toList), [], ("BTC-USD,LTC-USD".toList),
        ⟨("-".toList), true, []⟩⟩]⟩ :
        Config).CheckPairConsistency ("ANX".toList) 0 =
      .ok ⟨[⟨("ANX".toList), [], ("BTC-USD,LTC-USD".toList),
        ⟨("-".toList), true, []⟩⟩]⟩ ∧
    (⟨[⟨("ANX".toList), [], ("BTC-USD,LTC-USD".toList),
        ⟨("-".toList), true, []⟩⟩]⟩ :
        Config).GetEnabledPairs ("ANX".toList) = .ok [] ∧
    (⟨[⟨("ANX".toList), [], ("BTC-USD,LTC-USD".toList),
        ⟨("-".toList), true, []⟩⟩]⟩ :
        Config).GetAvailablePairs ("ANX".toList) =
      .ok [⟨("-".toList), ("BTC".toList), ("USD".toList)⟩,
           ⟨("-".toList), ("LTC".toList), ("USD".toList)⟩] ∧
    ([⟨("-".toList), ("BTC".toList), ("USD".toList)⟩,
      ⟨("-".toList), ("LTC".toList), ("USD".toList)⟩] : List CurrencyPair)
      ≠ [] :=
  ⟨rfl, rfl, rfl, by decide⟩

theorem checkPairConsistency_nonempty_subset_witness :
    (⟨[⟨("ANX".toList), ("ZZZ-USD".toList), ("BTC-USD,LTC-USD".toList),
        ⟨("-".toList), true, []⟩⟩]⟩ :
        Config).GetEnabledPairs ("ANX".toList) =
      .ok [⟨("-".toList), ("ZZZ".toList), ("USD".toList)⟩] ∧
    (⟨[⟨("ANX".toList), ("ZZZ-USD".toList), ("BTC-USD,LTC-USD".toList),
        ⟨("-".toList), true, []⟩⟩]⟩ :
        Config).GetAvailablePairs ("ANX".toList) =
      .ok [⟨("-".toList), ("BTC".toList), ("USD".toList)⟩,
           ⟨("-".toList), ("LTC".toList), ("USD".toList)⟩] ∧
    ([⟨("-".toList), ("ZZZ".toList), ("USD".toList)⟩] : List CurrencyPair) ≠ [] ∧
    ([⟨("-".toList), ("BTC".toList), ("USD".toList)⟩,
      ⟨("-".toList), ("LTC".toList), ("USD".toList)⟩] : List CurrencyPair) ≠ [] ∧
    (∃ c', (⟨[⟨("ANX".toList), ("ZZZ-USD".toList), ("BTC-USD,LTC-USD".toList),
        ⟨("-".toList), true, []⟩⟩]⟩ :
        Config).CheckPairConsistency ("ANX".toList) 0 = .ok c' ∧
      c'.GetAvailablePairs ("ANX".toList) =
        .ok [⟨("-".toList), ("BTC".toList), ("USD".toList)⟩,
             ⟨("-".toList), ("LTC".toList), ("USD".toList)⟩] ∧
      ∃ enabled', c'.GetEnabledPairs ("ANX".toList) = .ok enabled' ∧
        enabled' =
          (if ([⟨("-".toList), ("ZZZ".toList), ("USD".toList)⟩] :
              List CurrencyPair).filter (fun q => pair.Contains
                [⟨("-".toList), ("BTC".toList), ("USD".toList)⟩,
                 ⟨("-".toList), ("LTC".toList), ("USD".toList)⟩] q true) = []
           then [pair.RandomPairFromPairs
                [⟨("-".toList), ("BTC".toList), ("USD".toList)⟩,
                 ⟨("-".toList), ("LTC".toList), ("USD".toList)⟩] 0]
           else ([⟨("-".toList), ("ZZZ".toList), ("USD".toList)⟩] :
              List CurrencyPair).filter (fun q => pair.Contains
                [⟨("-".toList), ("BTC".toList), ("USD".toList)⟩,
                 ⟨("-".toList), ("LTC".toList), ("USD".toList)⟩] q true)) ∧
        enabled' ≠ [] ∧
        ∀ q ∈ enabled', pair.Contains
          [⟨("-".toList), ("BTC".toList), ("USD".toList)⟩,
           ⟨("-".toList), ("LTC".toList), ("USD".toList)⟩] q true = true) :=
  ⟨rfl, rfl, by decide, by decide,
   checkPairConsistency_nonempty_subset
     ⟨[⟨("ANX".toList), ("ZZZ-USD".toList), ("BTC-USD,LTC-USD".toList),
        ⟨("-".toList), true, []⟩⟩]⟩
     ("ANX".toList) 0
     [⟨("-".toList), ("ZZZ".toList), ("USD".toList)⟩]
     [⟨("-".toList), ("BTC".toList), ("USD".toList)⟩,
      ⟨("-".toList), ("LTC".toList), ("USD".toList)⟩]
     rfl rfl (by decide) (by decide)⟩
